import Mathlib

/-!
Verification of the process/thread scheduler (src/src/process.rs) and the
capability channel (src/src/capability.rs) of the RustOS experiments
repository, as a shallow embedding in Lean.

Machine-integer note: the Rust code allocates process/thread ids with
`AtomicU32::fetch_add` and capability ids with `u64` increments, which wrap
at 2^32 / 2^64.  The specification (§3) states that "capability and
process/thread identifier spaces never collide or wrap within a system's
lifetime", and no claim below exercises 2^32 allocations, so ids are
modelled as unbounded naturals.  All other integer fields (`usize`
pointers, `u8` priorities, `u64` times) are only stored and never
overflow-checked by the claims, and are likewise modelled as `Nat`.
-/

namespace RustOS

/-- `Permission` (src/src/capability.rs). -/
inductive Permission
  | Read | Write | Execute | Delete | Grant | Delegate
  | Custom (name : String)
deriving DecidableEq, Repr

/-- `PermissionSet` (src/src/capability.rs): a `Vec<Permission>`. -/
structure PermissionSet where
  permissions : List Permission
deriving DecidableEq, Repr

/-- `ResourceHandle` (src/src/capability.rs). -/
inductive ResourceHandle
  | File (path : String)
  | Network (addr : String)
  | Memory (addr : Nat)
  | Process (pid : Nat)
  | Device (name : String)
deriving DecidableEq, Repr

/-- `Capability` (src/src/capability.rs). -/
structure Capability where
  id : Nat
  permissions : PermissionSet
  resource : ResourceHandle
  expires_at : Option Nat
deriving DecidableEq, Repr

/-- `OpenMode` (src/src/capability.rs). -/
inductive OpenMode
  | Read | Write | ReadWrite | Append
deriving DecidableEq, Repr

/-- `FileSystemRequest` (src/src/capability.rs). -/
inductive FileSystemRequest
  | Open (path : String) (mode : OpenMode)
  | Create (path : String) (permissions : Nat)
  | Delete (path : String)
  | List (path : String)
deriving DecidableEq, Repr

/-- `NetworkRequest` (src/src/capability.rs). -/
inductive NetworkRequest
  | Connect (address : String) (port : Nat)
  | Listen (port : Nat)
  | Send (data : List Nat)
  | Receive (buffer_size : Nat)
deriving DecidableEq, Repr

/-- `MemoryRequest` (src/src/capability.rs). -/
inductive MemoryRequest
  | Allocate (size : Nat)
  | Deallocate (address : Nat) (size : Nat)
  | Map (address : Nat) (size : Nat) (permissions : Nat)
deriving DecidableEq, Repr

/-- `ProcessRequest` (src/src/capability.rs). -/
inductive ProcessRequest
  | Spawn (program : String) (args : List String)
  | Kill (pid : Nat)
  | Signal (pid : Nat) (signal : Nat)
deriving DecidableEq, Repr

/-- `CapabilityRequest` (src/src/capability.rs). -/
inductive CapabilityRequest
  | FileSystem (r : FileSystemRequest)
  | Network (r : NetworkRequest)
  | Memory (r : MemoryRequest)
  | Process (r : ProcessRequest)
deriving DecidableEq, Repr

/-- `CapabilityError` (src/src/capability.rs). -/
inductive CapabilityError
  | PermissionDenied
  | ResourceNotFound
  | InvalidRequest
  | SystemError (msg : String)
  | Expired
deriving DecidableEq, Repr

/-- `CapabilityResponse` (src/src/capability.rs). -/
inductive CapabilityResponse
  | Success (c : Capability)
  | Error (e : CapabilityError)
  | Data (bytes : List Nat)
deriving DecidableEq, Repr

/-- `CapabilityChannel::request` (src/src/capability.rs, lines 157-161).
The channel in the source is an explicit stub ("TODO: Implement proper
async request/response mechanism"): it ignores the request and
immediately returns `Err(CapabilityError::SystemError("Not implemented"))`.
The `async` wrapper resolves immediately, so it is modelled as a pure
function.  In particular the body contains no call to any collaborator. -/
def CapabilityChannel.request (_request : CapabilityRequest) :
    Except CapabilityError CapabilityResponse :=
  .error (.SystemError "Not implemented")

/-- `CapabilityChannelService::handle_network_request`
(src/src/capability.rs, lines 199-202): likewise a stub that ignores the
request and returns `Error(SystemError("Not implemented"))` without
touching any collaborator. -/
def CapabilityChannelService.handle_network_request (_request : NetworkRequest) :
    CapabilityResponse :=
  .Error (.SystemError "Not implemented")

/-- `MemoryPermissions` (src/src/memory.rs). -/
structure MemoryPermissions where
  read : Bool
  write : Bool
  execute : Bool
deriving DecidableEq, Repr

/-- `MemoryBacking` (src/src/memory.rs). -/
inductive MemoryBacking
  | Physical | Swapped | Mapped | Shared
deriving DecidableEq, Repr

/-- `MemoryRegion` (src/src/memory.rs). -/
structure MemoryRegion where
  start : Nat
  size : Nat
  permissions : MemoryPermissions
  backing : MemoryBacking
deriving DecidableEq, Repr

/-- `ProcessState` (src/src/process.rs). -/
inductive ProcessState
  | Created | Ready | Running | Blocked | Terminated
deriving DecidableEq, Repr

/-- `ThreadState` (src/src/process.rs). -/
inductive ThreadState
  | Created | Ready | Running | Blocked | Terminated
deriving DecidableEq, Repr

/-- `ProcessControlBlock` (src/src/process.rs).  `ProcessId` newtypes are
unwrapped to `Nat`. -/
structure ProcessControlBlock where
  pid : Nat
  parent_pid : Option Nat
  state : ProcessState
  capabilities : List Capability
  memory_regions : List MemoryRegion
  threads : List Nat
  priority : Nat
  creation_time : Nat
  cpu_time : Nat
deriving DecidableEq, Repr

/-- `ThreadControlBlock` (src/src/process.rs). -/
structure ThreadControlBlock where
  tid : Nat
  pid : Nat
  state : ThreadState
  stack_pointer : Nat
  instruction_pointer : Nat
  priority : Nat
  cpu_time : Nat
deriving DecidableEq, Repr

/-- `ProcessCreateParams` (src/src/process.rs). -/
structure ProcessCreateParams where
  program_path : String
  arguments : List String
  environment : List (String × String)
  capabilities : List Nat
  memory_limit : Option Nat
  cpu_limit : Option Nat
deriving DecidableEq, Repr

/-- `ThreadCreateParams` (src/src/process.rs). -/
structure ThreadCreateParams where
  entry_point : Nat
  stack_size : Nat
  priority : Nat
deriving DecidableEq, Repr

/-- `ProcessError` (src/src/process.rs). -/
inductive ProcessError
  | ProcessNotFound
  | ThreadNotFound
  | InsufficientPermissions
  | ResourceExhausted
  | InvalidParameters
  | SystemError (msg : String)
deriving DecidableEq, Repr

/-- `ProcessManager` (src/src/process.rs).  The `VecDeque` ready queue is a
list whose head is the queue front. -/
structure ProcessManager where
  processes : List ProcessControlBlock
  threads : List ThreadControlBlock
  next_pid : Nat
  next_tid : Nat
  ready_queue : List Nat
  current_thread : Option Nat
deriving DecidableEq, Repr

/-- Mutation of the first element satisfying `p` (Rust
`iter_mut().find(..)` followed by a write through the reference). -/
def updateFirst (p : α → Bool) (f : α → α) : List α → List α
  | [] => []
  | x :: xs => if p x then f x :: xs else x :: updateFirst p f xs

/-- `ProcessManager::new` (src/src/process.rs, lines 112-121). -/
def ProcessManager.new : ProcessManager :=
  { processes := []
    threads := []
    next_pid := 1
    next_tid := 1
    ready_queue := []
    current_thread := none }

/-- `ProcessManager::create_thread` (src/src/process.rs, lines 164-189).
Receiver mutation is modelled by returning the result together with the
updated manager; the error return leaves the manager untouched (the
existence check precedes the `fetch_add` and every write). -/
def ProcessManager.create_thread (s : ProcessManager) (pid : Nat)
    (params : ThreadCreateParams) : Except ProcessError Nat × ProcessManager :=
  if s.processes.any (fun p => p.pid == pid) then
    let tid := s.next_tid
    let tcb : ThreadControlBlock :=
      { tid := tid
        pid := pid
        state := .Ready
        stack_pointer := params.entry_point + params.stack_size
        instruction_pointer := params.entry_point
        priority := params.priority
        cpu_time := 0 }
    (.ok tid,
      { s with
          next_tid := s.next_tid + 1
          threads := s.threads ++ [tcb]
          ready_queue := s.ready_queue ++ [tid] })
  else
    (.error .ProcessNotFound, s)

/-- The PCB built by `ProcessManager::create_process` (src/src/process.rs,
lines 131-141) for a fresh pid: state Created, empty capability, region
and thread lists, default priority 128. -/
def pcb0 (pid : Nat) : ProcessControlBlock :=
  { pid := pid
    parent_pid := none
    state := .Created
    capabilities := []
    memory_regions := []
    threads := []
    priority := 128
    creation_time := 0
    cpu_time := 0 }

/-- The hard-coded parameters of the initial thread created by
`ProcessManager::create_process` (src/src/process.rs, lines 146-150). -/
def initialThreadParams : ThreadCreateParams :=
  { entry_point := 0x400000, stack_size := 0x100000, priority := 128 }

/-- `ProcessManager::create_process` (src/src/process.rs, lines 124-161).
The PCB is pushed before the initial thread is created (so a hypothetical
`create_thread` failure would leave the pushed PCB behind, as the Rust `?`
operator would); afterwards the first PCB with this pid gets the new
thread id appended and its state set to Ready. -/
def ProcessManager.create_process (s : ProcessManager)
    (_params : ProcessCreateParams) : Except ProcessError Nat × ProcessManager :=
  let pid := s.next_pid
  let s1 := { s with next_pid := s.next_pid + 1, processes := s.processes ++ [pcb0 pid] }
  match s1.create_thread pid initialThreadParams with
  | (.error e, s2) => (.error e, s2)
  | (.ok tid, s2) =>
    (.ok pid,
      { s2 with
          processes := updateFirst (fun p => p.pid == pid)
            (fun p => { p with threads := p.threads ++ [tid], state := .Ready })
            s2.processes })

/-- `ProcessManager::schedule_next` (src/src/process.rs, lines 247-262):
pop the queue front; if that id names a thread whose state is Ready, make
it current and re-append it to the tail; otherwise (absent id or other
state) the popped entry is dropped and `None` is returned. -/
def ProcessManager.schedule_next (s : ProcessManager) :
    Option Nat × ProcessManager :=
  match s.ready_queue with
  | [] => (none, s)
  | next_tid :: rest =>
    match s.threads.find? (fun t => t.tid == next_tid) with
    | some thread =>
      if thread.state == .Ready then
        (some next_tid,
          { s with current_thread := some next_tid, ready_queue := rest ++ [next_tid] })
      else
        (none, { s with ready_queue := rest })
    | none => (none, { s with ready_queue := rest })

/-- `ProcessManager::terminate_thread` (src/src/process.rs, lines 216-234):
mark the first TCB with this id Terminated (early error return if there is
none), remove the id from the ready queue everywhere (`retain`), and if it
was the current thread, clear the pointer and run `schedule_next`. -/
def ProcessManager.terminate_thread (s : ProcessManager) (tid : Nat) :
    Except ProcessError Unit × ProcessManager :=
  match s.threads.find? (fun t => t.tid == tid) with
  | none => (.error .ThreadNotFound, s)
  | some _ =>
    let s1 := { s with
      threads := updateFirst (fun t => t.tid == tid)
        (fun t => { t with state := .Terminated }) s.threads }
    let s2 := { s1 with ready_queue := s1.ready_queue.filter (fun t => t != tid) }
    if s2.current_thread == some tid then
      (.ok (), ({ s2 with current_thread := none }).schedule_next.2)
    else
      (.ok (), s2)

/-- The `for tid in thread_ids { self.terminate_thread(tid)?; }` loop of
`ProcessManager::terminate_process` (src/src/process.rs, lines 200-202),
with the Rust `?` early return carrying the partially mutated manager. -/
def ProcessManager.terminateAll (s : ProcessManager) :
    List Nat → Except ProcessError Unit × ProcessManager
  | [] => (.ok (), s)
  | tid :: rest =>
    match s.terminate_thread tid with
    | (.error e, s1) => (.error e, s1)
    | (.ok _, s1) => s1.terminateAll rest

/-- `ProcessManager::terminate_process` (src/src/process.rs, lines
192-213): collect the ids of all threads owned by `pid` up front,
terminate each, then mark the first PCB with this pid Terminated, or
return ProcessNotFound (after the thread terminations) if there is none. -/
def ProcessManager.terminate_process (s : ProcessManager) (pid : Nat) :
    Except ProcessError Unit × ProcessManager :=
  let thread_ids := (s.threads.filter (fun t => t.pid == pid)).map (fun t => t.tid)
  match s.terminateAll thread_ids with
  | (.error e, s1) => (.error e, s1)
  | (.ok _, s1) =>
    if s1.processes.any (fun p => p.pid == pid) then
      (.ok (),
        { s1 with
            processes := updateFirst (fun p => p.pid == pid)
              (fun p => { p with state := .Terminated }) s1.processes })
    else
      (.error .ProcessNotFound, s1)

/-- `ProcessManager::yield_thread` (src/src/process.rs, lines 270-278):
append the current thread (if any) to the queue tail, then run
`schedule_next`. -/
def ProcessManager.yield_thread (s : ProcessManager) : ProcessManager :=
  let s1 :=
    match s.current_thread with
    | some current => { s with ready_queue := s.ready_queue ++ [current] }
    | none => s
  s1.schedule_next.2

/-- One call of the `ProcessManager` public mutating interface. -/
inductive Op
  | createProcess (params : ProcessCreateParams)
  | createThread (pid : Nat) (params : ThreadCreateParams)
  | scheduleNext
  | yieldThread
  | terminateThread (tid : Nat)
  | terminateProcess (pid : Nat)
deriving DecidableEq, Repr

/-- The state reached after one interface call (results are discarded;
error returns keep whatever mutation the Rust method left behind, which
the operation definitions above model). -/
def ProcessManager.applyOp (s : ProcessManager) : Op → ProcessManager
  | .createProcess params => (s.create_process params).2
  | .createThread pid params => (s.create_thread pid params).2
  | .scheduleNext => s.schedule_next.2
  | .yieldThread => s.yield_thread
  | .terminateThread tid => (s.terminate_thread tid).2
  | .terminateProcess pid => (s.terminate_process pid).2

/-- The state reached after a sequence of interface calls. -/
def ProcessManager.applyOps (s : ProcessManager) (ops : List Op) : ProcessManager :=
  ops.foldl ProcessManager.applyOp s

/-- Whether an operation is `yield_thread`. -/
def Op.isYield : Op → Bool
  | .yieldThread => true
  | _ => false

/-- The recorded state of thread `tid`: the state of the first TCB in the
thread table carrying this id (Rust `iter().find` semantics), if any. -/
def ProcessManager.threadStateOf (s : ProcessManager) (tid : Nat) : Option ThreadState :=
  (s.threads.find? (fun t => t.tid == tid)).map (fun t => t.state)

/-- `true` when no step of the run `ops` from `s` increases the number of
TCBs carrying the id `tid`, i.e. the run never creates a new thread with
this id. -/
def noNewThreadWithId (tid : Nat) : ProcessManager → List Op → Bool
  | _, [] => true
  | s, op :: ops =>
    decide ((s.applyOp op).threads.countP (fun t => t.tid == tid)
      ≤ s.threads.countP (fun t => t.tid == tid))
      && noNewThreadWithId tid (s.applyOp op) ops

/-- Well-formedness of a manager: thread ids are pairwise distinct, and
every thread id stored anywhere (thread table, ready queue, current
pointer) is below the id counter.  Every interface call preserves this. -/
def ProcessManager.WF (s : ProcessManager) : Prop :=
  (s.threads.map (fun t => t.tid)).Nodup ∧
  (∀ t ∈ s.threads, t.tid < s.next_tid) ∧
  (∀ tid ∈ s.ready_queue, tid < s.next_tid) ∧
  (∀ tid, s.current_thread = some tid → tid < s.next_tid)

/-- A fully retired thread id: recorded state Terminated, absent from the
ready queue, and not the current thread. -/
def ProcessManager.Retired (s : ProcessManager) (tid : Nat) : Prop :=
  s.threadStateOf tid = some ThreadState.Terminated ∧
  tid ∉ s.ready_queue ∧
  s.current_thread ≠ some tid

/-- Arbitrary process-creation parameters used by the concrete scenarios
(`create_process` ignores them in the source). -/
def initParams : ProcessCreateParams :=
  { program_path := "init"
    arguments := []
    environment := []
    capabilities := []
    memory_limit := none
    cpu_limit := none }

/-- Arbitrary thread-creation parameters used by the concrete scenarios. -/
def tp0 : ThreadCreateParams :=
  { entry_point := 0, stack_size := 0, priority := 128 }

/-- The manager after one `create_process` on a fresh manager: process 1
with its initial thread 1, ready queue `[1]`. -/
def cpState : ProcessManager := (ProcessManager.new.create_process initParams).2

/-- The manager of the round-robin scenario: process 1 owning threads
1 (initial), 2 and 3, created in that order. -/
def rrState : ProcessManager :=
  (((cpState.create_thread 1 tp0).2).create_thread 1 tp0).2

/-- The manager after terminating process 1 right after `create_process`
on a fresh manager (the C8 witness run). -/
def termState : ProcessManager :=
  ((ProcessManager.new.applyOps [Op.createProcess initParams]).terminate_process 1).2

/-- The TCB of thread 1 as it stands in `termState`. -/
def tcbTerm1 : ThreadControlBlock :=
  ⟨1, 1, ThreadState.Terminated, 0x500000, 0x400000, 128, 0⟩

/-- A manager whose ready-queue head names a Terminated thread while a
thread in state Ready sits behind it in the queue (exercises the
stale-entry branch of `schedule_next`). -/
def staleState : ProcessManager :=
  { processes := []
    threads :=
      [{ tid := 1, pid := 1, state := .Terminated, stack_pointer := 0,
         instruction_pointer := 0, priority := 0, cpu_time := 0 },
       { tid := 2, pid := 1, state := .Ready, stack_pointer := 0,
         instruction_pointer := 0, priority := 0, cpu_time := 0 }]
    next_pid := 2
    next_tid := 3
    ready_queue := [1, 2]
    current_thread := none }

/-! ### Generic list lemmas -/

theorem find?_append_some {α : Type*} {p : α → Bool} {l₁ l₂ : List α} {a : α}
    (h : l₁.find? p = some a) : (l₁ ++ l₂).find? p = some a := by
  rw [List.find?_append, h]; rfl

theorem updateFirst_map {α β : Type*} {p : α → Bool} (f : α → α) (g : α → β)
    (h : ∀ x, p x = true → g (f x) = g x) (l : List α) :
    (updateFirst p f l).map g = l.map g := by
  induction l with
  | nil => rfl
  | cons x xs ih =>
    cases hp : p x with
    | true => simp [updateFirst, hp, h x hp]
    | false => simp [updateFirst, hp, ih]

theorem find?_updateFirst_self {α : Type*} {p : α → Bool} {f : α → α}
    (hf : ∀ x, p x = true → p (f x) = true) (l : List α) :
    (updateFirst p f l).find? p = (l.find? p).map f := by
  induction l with
  | nil => rfl
  | cons x xs ih =>
    cases hp : p x with
    | true => simp [updateFirst, hp, List.find?, hf x hp]
    | false => simp [updateFirst, hp, List.find?, ih]

theorem find?_updateFirst_other {α : Type*} {p q : α → Bool} {f : α → α}
    (h : ∀ x, p x = true → q x = false ∧ q (f x) = false) (l : List α) :
    (updateFirst p f l).find? q = l.find? q := by
  induction l with
  | nil => rfl
  | cons x xs ih =>
    cases hp : p x with
    | true =>
      obtain ⟨h1, h2⟩ := h x hp
      simp [updateFirst, hp, List.find?, h1, h2]
    | false =>
      cases hq : q x <;> simp [updateFirst, hp, List.find?, hq, ih]

theorem find?_key_of_mem_nodup {α : Type*} {g : α → Nat} {l : List α}
    (hnd : (l.map g).Nodup) {x : α} (hm : x ∈ l) :
    l.find? (fun y => g y == g x) = some x := by
  induction l with
  | nil => cases hm
  | cons a as ih =>
    rw [List.map_cons, List.nodup_cons] at hnd
    rcases List.mem_cons.1 hm with rfl | hm'
    · simp [List.find?]
    · have hne : g a ≠ g x := by
        intro he
        exact hnd.1 (he ▸ List.mem_map_of_mem g hm')
      have hb : (g a == g x) = false := by simp [hne]
      simp [List.find?, hb, ih hnd.2 hm']

theorem forall_mem_of_map_eq {α β : Type*} {l l' : List α} (g : α → β)
    (h : l'.map g = l.map g) (P : β → Prop) (hP : ∀ x ∈ l, P (g x)) :
    ∀ x ∈ l', P (g x) := by
  intro x hx
  have hgx : g x ∈ l.map g := h ▸ List.mem_map_of_mem g hx
  rcases List.mem_map.1 hgx with ⟨y, hy, hgy⟩
  rw [← hgy]
  exact hP y hy

/-! ### Case analysis of `schedule_next` -/

theorem schedule_next_cases (s : ProcessManager) :
    (s.ready_queue = [] ∧ s.schedule_next = (none, s)) ∨
    ∃ t rest, s.ready_queue = t :: rest ∧
      ((∃ tcb, s.threads.find? (fun c => c.tid == t) = some tcb ∧
          tcb.state = ThreadState.Ready ∧
          s.schedule_next =
            (some t, { s with current_thread := some t, ready_queue := rest ++ [t] })) ∨
        (s.schedule_next = (none, { s with ready_queue := rest }) ∧
          ∀ tcb, s.threads.find? (fun c => c.tid == t) = some tcb →
            tcb.state ≠ ThreadState.Ready)) := by
  cases hq : s.ready_queue with
  | nil => exact Or.inl ⟨rfl, by simp [ProcessManager.schedule_next, hq]⟩
  | cons t rest =>
    refine Or.inr ⟨t, rest, rfl, ?_⟩
    cases hf : s.threads.find? (fun c => c.tid == t) with
    | none =>
      refine Or.inr ⟨by simp [ProcessManager.schedule_next, hq, hf], ?_⟩
      intro tcb hfc
      cases hfc
    | some tcb =>
      by_cases hr : tcb.state = ThreadState.Ready
      · exact Or.inl ⟨tcb, rfl, hr, by simp [ProcessManager.schedule_next, hq, hf, hr]⟩
      · refine Or.inr ⟨?_, ?_⟩
        · simp [ProcessManager.schedule_next, hq, hf, hr]
        · intro tcb' hfc
          injection hfc with he
          rw [← he]
          exact hr

theorem schedule_next_threads (s : ProcessManager) :
    s.schedule_next.2.threads = s.threads := by
  rcases schedule_next_cases s with ⟨_, h⟩ | ⟨t, rest, hq, ⟨tcb, _, _, h⟩ | ⟨h, _⟩⟩ <;>
    rw [h]

/-! ### Claims -/

theorem schedule_next_some_ready {s : ProcessManager} {tid : Nat}
    (h : s.schedule_next.1 = some tid) :
    ∃ tcb, s.threads.find? (fun t => t.tid == tid) = some tcb ∧
      tcb.state = ThreadState.Ready := by
  rcases schedule_next_cases s with ⟨_, he⟩ | ⟨t, rest, hq, ⟨tcb, hf, hr, he⟩ | ⟨he, _⟩⟩
  · rw [he] at h; cases h
  · rw [he] at h
    obtain rfl : t = tid := by simpa using h
    exact ⟨tcb, hf, hr⟩
  · rw [he] at h; cases h

/-- C2: whenever `schedule_next` returns `Some tid`, the recorded state of
thread `tid` in the thread table at the moment of selection is Ready. -/
theorem C2_schedule_next_returns_ready (s : ProcessManager) (tid : Nat)
    (h : s.schedule_next.1 = some tid) :
    ∃ tcb, s.threads.find? (fun t => t.tid == tid) = some tcb ∧
      tcb.state = ThreadState.Ready :=
  schedule_next_some_ready h

/-- Witness for C2: in the round-robin state `schedule_next` selects
thread 1, whose recorded state is Ready. -/
theorem C2_witness :
    ∃ tcb, rrState.threads.find? (fun t => t.tid == 1) = some tcb ∧
      tcb.state = ThreadState.Ready :=
  C2_schedule_next_returns_ready rrState 1 (by decide)

/-- C4: with threads 1, 2, 3 created in that order (thread 1 as the
initial thread of `create_process`, then two `create_thread` calls and no
other operations), four successive `schedule_next` calls return 1, 2, 3
and then 1 again — strict round robin. -/
theorem C4_round_robin_order :
    rrState.schedule_next.1 = some 1 ∧
    rrState.schedule_next.2.schedule_next.1 = some 2 ∧
    rrState.schedule_next.2.schedule_next.2.schedule_next.1 = some 3 ∧
    rrState.schedule_next.2.schedule_next.2.schedule_next.2.schedule_next.1 = some 1 := by
  decide

/-- C7: `create_thread` on a pid absent from the process table returns
`Err(ProcessNotFound)` and leaves the manager exactly unchanged (no
thread added, queue, table, current pointer and counters untouched). -/
theorem C7_create_thread_unknown_pid (s : ProcessManager) (pid : Nat)
    (params : ThreadCreateParams) (h : ∀ p ∈ s.processes, p.pid ≠ pid) :
    s.create_thread pid params = (Except.error ProcessError.ProcessNotFound, s) := by
  have hany : s.processes.any (fun p => p.pid == pid) = false := by
    rw [List.any_eq_false]
    intro p hp
    simpa using h p hp
  simp [ProcessManager.create_thread, hany]

/-- Witness for C7: on an empty manager, `create_thread 1` fails with
ProcessNotFound and returns the manager unchanged. -/
theorem C7_witness :
    ProcessManager.new.create_thread 1 tp0 =
      (Except.error ProcessError.ProcessNotFound, ProcessManager.new) :=
  C7_create_thread_unknown_pid ProcessManager.new 1 tp0
    (by intro p hp; simp [ProcessManager.new] at hp)

/-- C10: `schedule_next` inspects only the queue head: if the popped head
names an absent thread or one whose state is not Ready, it returns `none`
and permanently discards that entry (the queue becomes `rest`), without
examining the rest of the queue — `rest` is arbitrary here and may well
contain Ready threads. -/
theorem C10_schedule_next_head_only (s : ProcessManager) (t : Nat) (rest : List Nat)
    (hq : s.ready_queue = t :: rest)
    (hstale : (s.threads.find? (fun c => c.tid == t)).all
      (fun tcb => tcb.state != ThreadState.Ready) = true) :
    s.schedule_next = (none, { s with ready_queue := rest }) := by
  rcases schedule_next_cases s with ⟨hq', _⟩ | ⟨t', rest', hq', hcase⟩
  · rw [hq] at hq'; cases hq'
  · rw [hq] at hq'
    injection hq' with h1 h2
    subst h1; subst h2
    rcases hcase with ⟨tcb, hf, hr, _⟩ | ⟨he, _⟩
    · rw [hf] at hstale
      simp at hstale
      exact absurd hr hstale
    · exact he

/-- Witness for C10: in `staleState` the head of the queue names the
Terminated thread 1 while the Ready thread 2 waits behind it;
`schedule_next` still returns `none` and drops only the head entry. -/
theorem C10_witness :
    staleState.threadStateOf 2 = some ThreadState.Ready ∧
    staleState.schedule_next = (none, { staleState with ready_queue := [2] }) :=
  ⟨by decide, C10_schedule_next_head_only staleState 1 [2] rfl (by decide)⟩

/-- Counterexample to C5: after `create_process` on a fresh manager,
`schedule_next` selects thread 1 but the recorded state of thread 1 is
still Ready, not Running — `schedule_next` never writes a thread state. -/
theorem C5_counterexample :
    cpState.schedule_next.1 = some 1 ∧
    cpState.schedule_next.2.threadStateOf 1 ≠ some ThreadState.Running := by
  decide

/-- C5 (amended): whenever `schedule_next` selects `tid` it sets the
current-thread pointer to `tid` but leaves the thread table entirely
unchanged; in particular the selected thread's recorded state remains
Ready rather than being set to Running. -/
theorem C5_schedule_next_marks_current_only (s : ProcessManager) (tid : Nat)
    (h : s.schedule_next.1 = some tid) :
    s.schedule_next.2.current_thread = some tid ∧
    s.schedule_next.2.threads = s.threads ∧
    s.schedule_next.2.threadStateOf tid = some ThreadState.Ready := by
  rcases schedule_next_cases s with ⟨_, he⟩ | ⟨t, rest, hq, ⟨tcb, hf, hr, he⟩ | ⟨he, _⟩⟩
  · rw [he] at h; cases h
  · rw [he] at h
    obtain rfl : t = tid := by simpa using h
    refine ⟨by rw [he], by rw [he], ?_⟩
    rw [ProcessManager.threadStateOf, schedule_next_threads]
    simp [hf, hr]
  · rw [he] at h; cases h

/-- Witness for C5 (amended): at `cpState` the selected thread is 1, the
pointer is set and the table is untouched with thread 1 still Ready. -/
theorem C5_witness :
    cpState.schedule_next.2.current_thread = some 1 ∧
    cpState.schedule_next.2.threads = cpState.threads ∧
    cpState.schedule_next.2.threadStateOf 1 = some ThreadState.Ready :=
  C5_schedule_next_marks_current_only cpState 1 (by decide)

/-- Counterexample to C6: with process 1 alive (owning its initial thread
1), `create_thread` succeeds with fresh id 2, yet the PCB's `threads`
list still does not contain 2 (it remains `[1]`). -/
theorem C6_counterexample :
    (cpState.create_thread 1 tp0).1 = Except.ok 2 ∧
    ((cpState.create_thread 1 tp0).2.processes.find? (fun p => p.pid == 1)).map
      (fun p => p.threads.contains 2) = some false :=
  ⟨rfl, rfl⟩

/-- C6 (amended): for a live process `pid`, `create_thread` assigns the
fresh id `next_tid`, records the new thread with state Ready and
stack/instruction pointers derived from `params`, appends the id to the
ready-queue tail — and leaves the process table (including the owning
PCB's `threads` list) completely unchanged; only `create_process` ever
appends to a PCB's thread list. -/
theorem C6_create_thread_effect (s : ProcessManager) (pid : Nat)
    (params : ThreadCreateParams)
    (h : s.processes.any (fun p => p.pid == pid) = true) :
    s.create_thread pid params =
      (Except.ok s.next_tid,
        { s with
            next_tid := s.next_tid + 1
            threads := s.threads ++
              [⟨s.next_tid, pid, ThreadState.Ready,
                params.entry_point + params.stack_size, params.entry_point,
                params.priority, 0⟩]
            ready_queue := s.ready_queue ++ [s.next_tid] }) := by
  simp [ProcessManager.create_thread, h]

/-- Witness for C6 (amended): concrete instance at `cpState`. -/
theorem C6_witness :
    cpState.create_thread 1 tp0 =
      (Except.ok cpState.next_tid,
        { cpState with
            next_tid := cpState.next_tid + 1
            threads := cpState.threads ++
              [⟨cpState.next_tid, 1, ThreadState.Ready,
                tp0.entry_point + tp0.stack_size, tp0.entry_point,
                tp0.priority, 0⟩]
            ready_queue := cpState.ready_queue ++ [cpState.next_tid] }) :=
  C6_create_thread_effect cpState 1 tp0 (by decide)

/-- Counterexample to C9: the capability channel is a stub, so a Network
Receive request with `buffer_size = 0` does not fail with InvalidRequest. -/
theorem C9_counterexample :
    CapabilityChannel.request (CapabilityRequest.Network (NetworkRequest.Receive 0)) ≠
      Except.error CapabilityError.InvalidRequest := by
  simp [CapabilityChannel.request]

/-- C9 (amended): a Network Receive request with `buffer_size = 0`
submitted via `CapabilityChannel::request` returns
`Err(SystemError("Not implemented"))` — the request path is an
unimplemented stub that performs no shape validation; no collaborator is
invoked (the stub body calls nothing). -/
theorem C9_receive_zero_stub :
    CapabilityChannel.request (CapabilityRequest.Network (NetworkRequest.Receive 0)) =
      Except.error (CapabilityError.SystemError "Not implemented") := rfl

/-- Counterexample to C1: the reachable state after `create_process`,
`schedule_next`, `yield_thread` holds thread id 1 twice in the ready
queue (`schedule_next` re-appended it for round robin and `yield_thread`
appended the current thread again). -/
theorem C1_counterexample :
    (ProcessManager.new.applyOps
      [Op.createProcess initParams, Op.scheduleNext, Op.yieldThread]).ready_queue.count 1
      = 2 := by
  decide

/-! ### Characterizations of the remaining operations -/

theorem create_thread_pos {s : ProcessManager} {pid : Nat} (params : ThreadCreateParams)
    (h : s.processes.any (fun p => p.pid == pid) = true) :
    s.create_thread pid params =
      (Except.ok s.next_tid,
        { s with
            next_tid := s.next_tid + 1
            threads := s.threads ++
              [⟨s.next_tid, pid, ThreadState.Ready,
                params.entry_point + params.stack_size, params.entry_point,
                params.priority, 0⟩]
            ready_queue := s.ready_queue ++ [s.next_tid] }) := by
  simp [ProcessManager.create_thread, h]

theorem create_thread_neg {s : ProcessManager} {pid : Nat} (params : ThreadCreateParams)
    (h : s.processes.any (fun p => p.pid == pid) = false) :
    s.create_thread pid params = (Except.error ProcessError.ProcessNotFound, s) := by
  simp [ProcessManager.create_thread, h]

theorem create_process_eq (s : ProcessManager) (params : ProcessCreateParams) :
    s.create_process params =
      (Except.ok s.next_pid,
        { s with
            next_pid := s.next_pid + 1
            processes := updateFirst (fun p => p.pid == s.next_pid)
              (fun p => { p with threads := p.threads ++ [s.next_tid],
                                 state := ProcessState.Ready })
              (s.processes ++ [pcb0 s.next_pid])
            next_tid := s.next_tid + 1
            threads := s.threads ++
              [⟨s.next_tid, s.next_pid, ThreadState.Ready,
                initialThreadParams.entry_point + initialThreadParams.stack_size,
                initialThreadParams.entry_point, initialThreadParams.priority, 0⟩]
            ready_queue := s.ready_queue ++ [s.next_tid] }) := by
  have h1 :
      ({ s with
          next_pid := s.next_pid + 1
          processes := s.processes ++ [pcb0 s.next_pid] } : ProcessManager).processes.any
        (fun p => p.pid == s.next_pid) = true := by
    simp [pcb0]
  simp [ProcessManager.create_process, create_thread_pos _ h1]

theorem terminate_thread_not_found {s : ProcessManager} {tid : Nat}
    (hf : s.threads.find? (fun t => t.tid == tid) = none) :
    s.terminate_thread tid = (Except.error ProcessError.ThreadNotFound, s) := by
  simp [ProcessManager.terminate_thread, hf]

theorem terminate_thread_eq_cur {s : ProcessManager} {tid : Nat} {w : ThreadControlBlock}
    (hf : s.threads.find? (fun t => t.tid == tid) = some w)
    (hc : s.current_thread = some tid) :
    s.terminate_thread tid =
      (Except.ok (),
        ({ s with
            threads := updateFirst (fun t => t.tid == tid)
              (fun t => { t with state := ThreadState.Terminated }) s.threads
            ready_queue := s.ready_queue.filter (fun t => t != tid)
            current_thread := none } : ProcessManager).schedule_next.2) := by
  simp [ProcessManager.terminate_thread, hf, hc]

theorem terminate_thread_eq_notcur {s : ProcessManager} {tid : Nat} {w : ThreadControlBlock}
    (hf : s.threads.find? (fun t => t.tid == tid) = some w)
    (hc : s.current_thread ≠ some tid) :
    s.terminate_thread tid =
      (Except.ok (),
        { s with
            threads := updateFirst (fun t => t.tid == tid)
              (fun t => { t with state := ThreadState.Terminated }) s.threads
            ready_queue := s.ready_queue.filter (fun t => t != tid) }) := by
  simp [ProcessManager.terminate_thread, hf, hc]

theorem terminate_process_eq_err {s : ProcessManager} {pid : Nat}
    {e : ProcessError} {s1 : ProcessManager}
    (hta : s.terminateAll ((s.threads.filter (fun t => t.pid == pid)).map
      (fun t => t.tid)) = (Except.error e, s1)) :
    s.terminate_process pid = (Except.error e, s1) := by
  simp [ProcessManager.terminate_process, hta]

theorem terminate_process_eq_found {s : ProcessManager} {pid : Nat}
    {s1 : ProcessManager} {u : Unit}
    (hta : s.terminateAll ((s.threads.filter (fun t => t.pid == pid)).map
      (fun t => t.tid)) = (Except.ok u, s1))
    (hany : s1.processes.any (fun p => p.pid == pid) = true) :
    s.terminate_process pid =
      (Except.ok (),
        { s1 with
            processes := updateFirst (fun p => p.pid == pid)
              (fun p => { p with state := ProcessState.Terminated }) s1.processes }) := by
  simp [ProcessManager.terminate_process, hta, hany]

theorem terminate_process_eq_notfound {s : ProcessManager} {pid : Nat}
    {s1 : ProcessManager} {u : Unit}
    (hta : s.terminateAll ((s.threads.filter (fun t => t.pid == pid)).map
      (fun t => t.tid)) = (Except.ok u, s1))
    (hany : s1.processes.any (fun p => p.pid == pid) = false) :
    s.terminate_process pid = (Except.error ProcessError.ProcessNotFound, s1) := by
  simp [ProcessManager.terminate_process, hta, hany]

theorem yield_thread_eq_some {s : ProcessManager} {c : Nat}
    (hc : s.current_thread = some c) :
    s.yield_thread =
      ({ s with ready_queue := s.ready_queue ++ [c] } : ProcessManager).schedule_next.2 := by
  simp [ProcessManager.yield_thread, hc]

theorem yield_thread_eq_none {s : ProcessManager} (hc : s.current_thread = none) :
    s.yield_thread = s.schedule_next.2 := by
  simp [ProcessManager.yield_thread, hc]

/-! ### A Terminated recorded state survives every operation -/

theorem find?_tid_updateTerm_ne {l : List ThreadControlBlock} {t' tid : Nat}
    (hne : t' ≠ tid) :
    (updateFirst (fun t => t.tid == t')
        (fun t => { t with state := ThreadState.Terminated }) l).find?
      (fun t => t.tid == tid) = l.find? (fun t => t.tid == tid) := by
  refine find?_updateFirst_other (fun x hx => ?_) l
  have hxt : x.tid = t' := by simpa using hx
  constructor
  · simp [hxt, hne]
  · simp [hxt, hne]

theorem find?_tid_updateTerm_self {l : List ThreadControlBlock} {tid : Nat} :
    (updateFirst (fun t => t.tid == tid)
        (fun t => { t with state := ThreadState.Terminated }) l).find?
      (fun t => t.tid == tid) =
    (l.find? (fun t => t.tid == tid)).map
      (fun t => { t with state := ThreadState.Terminated }) :=
  @find?_updateFirst_self ThreadControlBlock (fun t => t.tid == tid)
    (fun t => { t with state := ThreadState.Terminated }) (fun _ hx => hx) l

theorem term_create_thread {s : ProcessManager} {tid : Nat} (pid : Nat)
    (params : ThreadCreateParams)
    (h : s.threadStateOf tid = some ThreadState.Terminated) :
    ((s.create_thread pid params).2).threadStateOf tid = some ThreadState.Terminated := by
  rw [ProcessManager.threadStateOf] at h
  obtain ⟨u, hu, hus⟩ := Option.map_eq_some'.1 h
  cases hany : s.processes.any (fun p => p.pid == pid) with
  | true =>
    simp only [create_thread_pos params hany, ProcessManager.threadStateOf]
    rw [find?_append_some hu]
    simp [hus]
  | false =>
    simp only [create_thread_neg params hany, ProcessManager.threadStateOf]
    rw [hu]
    simp [hus]

theorem term_schedule_next {s : ProcessManager} {tid : Nat}
    (h : s.threadStateOf tid = some ThreadState.Terminated) :
    s.schedule_next.2.threadStateOf tid = some ThreadState.Terminated := by
  rw [ProcessManager.threadStateOf, schedule_next_threads]
  exact h

theorem term_create_process {s : ProcessManager} {tid : Nat} (params : ProcessCreateParams)
    (h : s.threadStateOf tid = some ThreadState.Terminated) :
    ((s.create_process params).2).threadStateOf tid = some ThreadState.Terminated := by
  rw [ProcessManager.threadStateOf] at h
  obtain ⟨u, hu, hus⟩ := Option.map_eq_some'.1 h
  simp only [create_process_eq, ProcessManager.threadStateOf]
  rw [find?_append_some hu]
  simp [hus]

theorem term_terminate_thread {s : ProcessManager} {tid : Nat} (t' : Nat)
    (h : s.threadStateOf tid = some ThreadState.Terminated) :
    ((s.terminate_thread t').2).threadStateOf tid = some ThreadState.Terminated := by
  cases hf : s.threads.find? (fun t => t.tid == t') with
  | none => rw [terminate_thread_not_found hf]; exact h
  | some w =>
    have hupd :
        ((updateFirst (fun t => t.tid == t')
            (fun t => { t with state := ThreadState.Terminated }) s.threads).find?
          (fun t => t.tid == tid)).map (fun t => t.state)
          = some ThreadState.Terminated := by
      by_cases hne : t' = tid
      · subst hne
        rw [find?_tid_updateTerm_self]
        rw [ProcessManager.threadStateOf] at h
        obtain ⟨u, hu, hus⟩ := Option.map_eq_some'.1 h
        rw [hu]
        simp
      · rw [find?_tid_updateTerm_ne hne]
        exact h
    by_cases hc : s.current_thread = some t'
    · simp only [terminate_thread_eq_cur hf hc, ProcessManager.threadStateOf,
        schedule_next_threads]
      exact hupd
    · simp only [terminate_thread_eq_notcur hf hc, ProcessManager.threadStateOf]
      exact hupd

theorem term_terminateAll {tid : Nat} (tids : List Nat) :
    ∀ s : ProcessManager, s.threadStateOf tid = some ThreadState.Terminated →
      ((s.terminateAll tids).2).threadStateOf tid = some ThreadState.Terminated := by
  induction tids with
  | nil => intro s h; exact h
  | cons t' rest ih =>
    intro s h
    rw [ProcessManager.terminateAll]
    cases ht : s.terminate_thread t' with
    | mk r s1 =>
      have hs1 : s1.threadStateOf tid = some ThreadState.Terminated := by
        have := term_terminate_thread t' h
        rw [ht] at this
        exact this
      cases r with
      | error e => exact hs1
      | ok u => exact ih s1 hs1

theorem term_terminate_process {s : ProcessManager} {tid : Nat} (pid : Nat)
    (h : s.threadStateOf tid = some ThreadState.Terminated) :
    ((s.terminate_process pid).2).threadStateOf tid = some ThreadState.Terminated := by
  rw [ProcessManager.terminate_process]
  cases hta : s.terminateAll ((s.threads.filter (fun t => t.pid == pid)).map
      (fun t => t.tid)) with
  | mk r s1 =>
    have hs1 : s1.threadStateOf tid = some ThreadState.Terminated := by
      have := term_terminateAll
        ((s.threads.filter (fun t => t.pid == pid)).map (fun t => t.tid)) s h
      rw [hta] at this
      exact this
    cases r with
    | error e => exact hs1
    | ok u =>
      cases hany : s1.processes.any (fun p => p.pid == pid) with
      | true => simpa [hany, ProcessManager.threadStateOf] using hs1
      | false => simpa [hany] using hs1

theorem term_yield_thread {s : ProcessManager} {tid : Nat}
    (h : s.threadStateOf tid = some ThreadState.Terminated) :
    (s.yield_thread).threadStateOf tid = some ThreadState.Terminated := by
  cases hc : s.current_thread with
  | none => rw [yield_thread_eq_none hc]; exact term_schedule_next h
  | some c =>
    rw [yield_thread_eq_some hc]
    exact term_schedule_next h

theorem term_applyOp {s : ProcessManager} {tid : Nat} (op : Op)
    (h : s.threadStateOf tid = some ThreadState.Terminated) :
    (s.applyOp op).threadStateOf tid = some ThreadState.Terminated := by
  cases op with
  | createProcess params => exact term_create_process params h
  | createThread pid params => exact term_create_thread pid params h
  | scheduleNext => exact term_schedule_next h
  | yieldThread => exact term_yield_thread h
  | terminateThread t' => exact term_terminate_thread t' h
  | terminateProcess pid => exact term_terminate_process pid h

theorem term_applyOps {tid : Nat} (ops : List Op) :
    ∀ s : ProcessManager, s.threadStateOf tid = some ThreadState.Terminated →
      (s.applyOps ops).threadStateOf tid = some ThreadState.Terminated := by
  induction ops with
  | nil => intro s h; exact h
  | cons op rest ih =>
    intro s h
    exact ih (s.applyOp op) (term_applyOp op h)

theorem term_of_terminate_thread_ok {s s' : ProcessManager} {tid : Nat} {u : Unit}
    (h : s.terminate_thread tid = (Except.ok u, s')) :
    s'.threadStateOf tid = some ThreadState.Terminated := by
  cases hf : s.threads.find? (fun t => t.tid == tid) with
  | none =>
    rw [terminate_thread_not_found hf] at h
    exact absurd (congrArg Prod.fst h) (by simp)
  | some w =>
    have hupd :
        ((updateFirst (fun t => t.tid == tid)
            (fun t => { t with state := ThreadState.Terminated }) s.threads).find?
          (fun t => t.tid == tid)).map (fun t => t.state)
          = some ThreadState.Terminated := by
      rw [find?_tid_updateTerm_self, hf]
      simp
    by_cases hc : s.current_thread = some tid
    · rw [terminate_thread_eq_cur hf hc] at h
      have hs' : s' =
          ({ s with
              threads := updateFirst (fun t => t.tid == tid)
                (fun t => { t with state := ThreadState.Terminated }) s.threads
              ready_queue := s.ready_queue.filter (fun t => t != tid)
              current_thread := none } : ProcessManager).schedule_next.2 := by
        have h2 := congrArg Prod.snd h
        simpa using h2.symm
      rw [hs']
      simp only [ProcessManager.threadStateOf, schedule_next_threads]
      exact hupd
    · rw [terminate_thread_eq_notcur hf hc] at h
      have hs' : s' =
          { s with
              threads := updateFirst (fun t => t.tid == tid)
                (fun t => { t with state := ThreadState.Terminated }) s.threads
              ready_queue := s.ready_queue.filter (fun t => t != tid) } := by
        have h2 := congrArg Prod.snd h
        simpa using h2.symm
      rw [hs']
      simp only [ProcessManager.threadStateOf]
      exact hupd

/-- C3: once `terminate_thread tid` has succeeded, no later call to
`schedule_next` — after any interleaving of scheduler operations along
which no new thread with the id `tid` is created — ever returns `tid`
again (the recorded state of `tid` stays Terminated forever and
`schedule_next` only returns Ready threads). -/
theorem C3_terminated_never_scheduled (s : ProcessManager) (tid : Nat)
    (s₀ : ProcessManager) (u : Unit)
    (hterm : s.terminate_thread tid = (Except.ok u, s₀))
    (ops : List Op) (_hops : noNewThreadWithId tid s₀ ops = true) :
    ((s₀.applyOps ops).schedule_next).1 ≠ some tid := by
  intro hsome
  obtain ⟨tcb, hf, hr⟩ := schedule_next_some_ready hsome
  have hterm1 := term_applyOps ops s₀ (term_of_terminate_thread_ok hterm)
  rw [ProcessManager.threadStateOf, hf] at hterm1
  simp only [Option.map_some'] at hterm1
  injection hterm1 with hterm2
  rw [hr] at hterm2
  cases hterm2

/-- Witness for C3: after `create_process` and a successful
`terminate_thread 1`, a further `schedule_next` then another
`schedule_next` call does not return thread 1. -/
theorem C3_witness :
    (((cpState.terminate_thread 1).2.applyOps [Op.scheduleNext]).schedule_next).1
      ≠ some 1 :=
  C3_terminated_never_scheduled cpState 1 (cpState.terminate_thread 1).2 () rfl
    [Op.scheduleNext] (by decide)

/-! ### Well-formedness is preserved by every operation -/

theorem wf_new : ProcessManager.new.WF := by
  refine ⟨?_, ?_, ?_, ?_⟩ <;> simp [ProcessManager.new]

theorem wf_append_fresh {s : ProcessManager} (h : s.WF)
    {tcb : ThreadControlBlock} (htcb : tcb.tid = s.next_tid)
    (P : List ProcessControlBlock) (np : Nat) :
    ProcessManager.WF
      { processes := P
        threads := s.threads ++ [tcb]
        next_pid := np
        next_tid := s.next_tid + 1
        ready_queue := s.ready_queue ++ [s.next_tid]
        current_thread := s.current_thread } := by
  obtain ⟨h1, h2, h3, h4⟩ := h
  refine ⟨?_, ?_, ?_, ?_⟩
  · rw [List.map_append]
    refine List.Nodup.append h1 (by simp) ?_
    intro a ha hb
    simp [htcb] at hb
    subst hb
    rcases List.mem_map.1 ha with ⟨t, ht, htid⟩
    exact absurd (htid ▸ h2 t ht) (lt_irrefl _)
  · intro t ht
    rcases List.mem_append.1 ht with ht | ht
    · exact Nat.lt_succ_of_lt (h2 t ht)
    · simp at ht
      subst ht
      rw [htcb]
      exact Nat.lt_succ_self _
  · intro q hq
    rcases List.mem_append.1 hq with hq | hq
    · exact Nat.lt_succ_of_lt (h3 q hq)
    · simp at hq
      subst hq
      exact Nat.lt_succ_self _
  · intro q hq
    exact Nat.lt_succ_of_lt (h4 q hq)

theorem wf_create_thread {s : ProcessManager} (pid : Nat)
    (params : ThreadCreateParams) (h : s.WF) :
    ((s.create_thread pid params).2).WF := by
  cases hany : s.processes.any (fun p => p.pid == pid) with
  | false => rw [create_thread_neg params hany]; exact h
  | true =>
    rw [create_thread_pos params hany]
    exact wf_append_fresh h rfl _ _

theorem wf_create_process {s : ProcessManager} (params : ProcessCreateParams)
    (h : s.WF) : ((s.create_process params).2).WF := by
  rw [create_process_eq]
  exact wf_append_fresh h rfl _ _

theorem wf_schedule_next {s : ProcessManager} (h : s.WF) :
    s.schedule_next.2.WF := by
  obtain ⟨h1, h2, h3, h4⟩ := h
  rcases schedule_next_cases s with ⟨hq, he⟩ | ⟨t, rest, hq, ⟨tcb, hf, hr, he⟩ | ⟨he, _⟩⟩
  · rw [he]; exact ⟨h1, h2, h3, h4⟩
  · rw [he]
    refine ⟨h1, h2, ?_, ?_⟩
    · intro q hqm
      rcases List.mem_append.1 hqm with hm | hm
      · exact h3 q (hq ▸ List.mem_cons_of_mem t hm)
      · have hqt : q = t := by simpa using hm
        rw [hqt]
        exact h3 t (hq ▸ List.mem_cons_self t rest)
    · intro q hqc
      have hqt : q = t := by
        injection hqc with hq2
        exact hq2.symm
      rw [hqt]
      exact h3 t (hq ▸ List.mem_cons_self t rest)
  · rw [he]
    refine ⟨h1, h2, ?_, h4⟩
    intro q hm
    exact h3 q (hq ▸ List.mem_cons_of_mem t hm)

theorem wf_terminate_thread {s : ProcessManager} (tid : Nat) (h : s.WF) :
    ((s.terminate_thread tid).2).WF := by
  obtain ⟨h1, h2, h3, h4⟩ := h
  cases hf : s.threads.find? (fun t => t.tid == tid) with
  | none => rw [terminate_thread_not_found hf]; exact ⟨h1, h2, h3, h4⟩
  | some w =>
    have hmap : (updateFirst (fun t => t.tid == tid)
        (fun t => { t with state := ThreadState.Terminated }) s.threads).map
          (fun t => t.tid) = s.threads.map (fun t => t.tid) :=
      @updateFirst_map ThreadControlBlock Nat (fun t => t.tid == tid)
        (fun t => { t with state := ThreadState.Terminated }) (fun t => t.tid)
        (fun _ _ => rfl) s.threads
    have hnd : (updateFirst (fun t => t.tid == tid)
        (fun t => { t with state := ThreadState.Terminated }) s.threads).map
          (fun t => t.tid) |>.Nodup := by rw [hmap]; exact h1
    have hbound := forall_mem_of_map_eq (fun t : ThreadControlBlock => t.tid) hmap
      (fun n => n < s.next_tid) h2
    have hqbound : ∀ q ∈ s.ready_queue.filter (fun t => t != tid), q < s.next_tid :=
      fun q hq => h3 q (List.mem_of_mem_filter hq)
    by_cases hc : s.current_thread = some tid
    · rw [terminate_thread_eq_cur hf hc]
      apply wf_schedule_next
      refine ⟨hnd, hbound, hqbound, ?_⟩
      intro q hq
      cases hq
    · rw [terminate_thread_eq_notcur hf hc]
      exact ⟨hnd, hbound, hqbound, h4⟩

theorem wf_terminateAll (tids : List Nat) :
    ∀ s : ProcessManager, s.WF → ((s.terminateAll tids).2).WF := by
  induction tids with
  | nil => intro s h; exact h
  | cons t rest ih =>
    intro s h
    rw [ProcessManager.terminateAll]
    cases ht : s.terminate_thread t with
    | mk r s1 =>
      have hs1 : s1.WF := by
        have := wf_terminate_thread t h
        rw [ht] at this
        exact this
      cases r with
      | error e => exact hs1
      | ok u => exact ih s1 hs1

theorem wf_terminate_process {s : ProcessManager} (pid : Nat) (h : s.WF) :
    ((s.terminate_process pid).2).WF := by
  cases hta : s.terminateAll ((s.threads.filter (fun t => t.pid == pid)).map
      (fun t => t.tid)) with
  | mk r s1 =>
    have hs1 : s1.WF := by
      have := wf_terminateAll
        ((s.threads.filter (fun t => t.pid == pid)).map (fun t => t.tid)) s h
      rw [hta] at this
      exact this
    cases r with
    | error e => rw [terminate_process_eq_err hta]; exact hs1
    | ok u =>
      cases hany : s1.processes.any (fun p => p.pid == pid) with
      | true =>
        rw [terminate_process_eq_found hta hany]
        exact ⟨hs1.1, hs1.2.1, hs1.2.2.1, hs1.2.2.2⟩
      | false =>
        rw [terminate_process_eq_notfound hta hany]
        exact hs1

theorem wf_yield_thread {s : ProcessManager} (h : s.WF) : s.yield_thread.WF := by
  obtain ⟨h1, h2, h3, h4⟩ := h
  cases hc : s.current_thread with
  | none => rw [yield_thread_eq_none hc]; exact wf_schedule_next ⟨h1, h2, h3, h4⟩
  | some c =>
    rw [yield_thread_eq_some hc]
    apply wf_schedule_next
    refine ⟨h1, h2, ?_, h4⟩
    intro q hqm
    rcases List.mem_append.1 hqm with hm | hm
    · exact h3 q hm
    · simp at hm
      subst hm
      exact h4 q hc

theorem wf_applyOp {s : ProcessManager} (op : Op) (h : s.WF) :
    (s.applyOp op).WF := by
  cases op with
  | createProcess params => exact wf_create_process params h
  | createThread pid params => exact wf_create_thread pid params h
  | scheduleNext => exact wf_schedule_next h
  | yieldThread => exact wf_yield_thread h
  | terminateThread tid => exact wf_terminate_thread tid h
  | terminateProcess pid => exact wf_terminate_process pid h

theorem wf_applyOps (ops : List Op) :
    ∀ s : ProcessManager, s.WF → (s.applyOps ops).WF := by
  induction ops with
  | nil => intro s h; exact h
  | cons op rest ih => intro s h; exact ih (s.applyOp op) (wf_applyOp op h)

/-! ### Without `yield_thread` the ready queue stays duplicate-free -/

theorem qnodup_schedule_next {s : ProcessManager} (h : s.ready_queue.Nodup) :
    s.schedule_next.2.ready_queue.Nodup := by
  rcases schedule_next_cases s with ⟨hq, he⟩ | ⟨t, rest, hq, ⟨tcb, hf, hr, he⟩ | ⟨he, _⟩⟩
  · rw [he]; exact h
  · rw [he]
    rw [hq, List.nodup_cons] at h
    refine List.Nodup.append h.2 (by simp) ?_
    intro a ha hb
    simp at hb
    subst hb
    exact h.1 ha
  · rw [he]
    rw [hq, List.nodup_cons] at h
    exact h.2

theorem qnodup_create_thread {s : ProcessManager} (pid : Nat)
    (params : ThreadCreateParams) (hwf : s.WF) (h : s.ready_queue.Nodup) :
    ((s.create_thread pid params).2).ready_queue.Nodup := by
  cases hany : s.processes.any (fun p => p.pid == pid) with
  | false => rw [create_thread_neg params hany]; exact h
  | true =>
    rw [create_thread_pos params hany]
    refine List.Nodup.append h (by simp) ?_
    intro a ha hb
    simp at hb
    subst hb
    exact absurd (hwf.2.2.1 _ ha) (lt_irrefl _)

theorem qnodup_create_process {s : ProcessManager} (params : ProcessCreateParams)
    (hwf : s.WF) (h : s.ready_queue.Nodup) :
    ((s.create_process params).2).ready_queue.Nodup := by
  rw [create_process_eq]
  refine List.Nodup.append h (by simp) ?_
  intro a ha hb
  simp at hb
  subst hb
  exact absurd (hwf.2.2.1 _ ha) (lt_irrefl _)

theorem qnodup_terminate_thread {s : ProcessManager} (tid : Nat)
    (h : s.ready_queue.Nodup) : ((s.terminate_thread tid).2).ready_queue.Nodup := by
  cases hf : s.threads.find? (fun t => t.tid == tid) with
  | none => rw [terminate_thread_not_found hf]; exact h
  | some w =>
    have hfil : (s.ready_queue.filter (fun t => t != tid)).Nodup := h.filter _
    by_cases hc : s.current_thread = some tid
    · rw [terminate_thread_eq_cur hf hc]
      exact qnodup_schedule_next hfil
    · rw [terminate_thread_eq_notcur hf hc]
      exact hfil

theorem qnodup_terminateAll (tids : List Nat) :
    ∀ s : ProcessManager, s.ready_queue.Nodup →
      ((s.terminateAll tids).2).ready_queue.Nodup := by
  induction tids with
  | nil => intro s h; exact h
  | cons t rest ih =>
    intro s h
    rw [ProcessManager.terminateAll]
    cases ht : s.terminate_thread t with
    | mk r s1 =>
      have hs1 : s1.ready_queue.Nodup := by
        have := qnodup_terminate_thread t h
        rw [ht] at this
        exact this
      cases r with
      | error e => exact hs1
      | ok u => exact ih s1 hs1

theorem qnodup_terminate_process {s : ProcessManager} (pid : Nat)
    (h : s.ready_queue.Nodup) : ((s.terminate_process pid).2).ready_queue.Nodup := by
  cases hta : s.terminateAll ((s.threads.filter (fun t => t.pid == pid)).map
      (fun t => t.tid)) with
  | mk r s1 =>
    have hs1 : s1.ready_queue.Nodup := by
      have := qnodup_terminateAll
        ((s.threads.filter (fun t => t.pid == pid)).map (fun t => t.tid)) s h
      rw [hta] at this
      exact this
    cases r with
    | error e => rw [terminate_process_eq_err hta]; exact hs1
    | ok u =>
      cases hany : s1.processes.any (fun p => p.pid == pid) with
      | true => rw [terminate_process_eq_found hta hany]; exact hs1
      | false => rw [terminate_process_eq_notfound hta hany]; exact hs1

theorem wf_qnodup_applyOps (ops : List Op) :
    ∀ s : ProcessManager, (∀ op ∈ ops, op.isYield = false) → s.WF →
      s.ready_queue.Nodup →
      (s.applyOps ops).WF ∧ (s.applyOps ops).ready_queue.Nodup := by
  induction ops with
  | nil => intro s _ h1 h2; exact ⟨h1, h2⟩
  | cons op rest ih =>
    intro s hops h1 h2
    have hop : op.isYield = false := hops op (List.mem_cons_self op rest)
    have hstep : (s.applyOp op).WF ∧ (s.applyOp op).ready_queue.Nodup := by
      cases op with
      | createProcess params =>
        exact ⟨wf_create_process params h1, qnodup_create_process params h1 h2⟩
      | createThread pid params =>
        exact ⟨wf_create_thread pid params h1, qnodup_create_thread pid params h1 h2⟩
      | scheduleNext => exact ⟨wf_schedule_next h1, qnodup_schedule_next h2⟩
      | yieldThread => simp [Op.isYield] at hop
      | terminateThread tid =>
        exact ⟨wf_terminate_thread tid h1, qnodup_terminate_thread tid h2⟩
      | terminateProcess pid =>
        exact ⟨wf_terminate_process pid h1, qnodup_terminate_process pid h2⟩
    exact ih (s.applyOp op) (fun o ho => hops o (List.mem_cons_of_mem op ho))
      hstep.1 hstep.2

/-- C1 (amended): in every state reachable from the empty manager through
any sequence of `create_process`, `create_thread`, `schedule_next`,
`terminate_thread`, `terminate_process` calls — i.e. any interface
sequence that never invokes `yield_thread` — the ready queue contains
each thread id at most once.  (`yield_thread` breaks this: see the
counterexample, where one yield duplicates the current thread's queue
entry.) -/
theorem C1_ready_queue_count (ops : List Op)
    (hops : ∀ op ∈ ops, op.isYield = false) (tid : Nat) :
    (ProcessManager.new.applyOps ops).ready_queue.count tid ≤ 1 := by
  have h := wf_qnodup_applyOps ops ProcessManager.new hops wf_new
    (by simp [ProcessManager.new])
  exact List.nodup_iff_count_le_one.1 h.2 tid

/-- Witness for C1 (amended): a yield-free run. -/
theorem C1_witness :
    (ProcessManager.new.applyOps
      [Op.createProcess initParams, Op.scheduleNext]).ready_queue.count 1 ≤ 1 :=
  C1_ready_queue_count [Op.createProcess initParams, Op.scheduleNext] (by decide) 1

/-! ### Fully retired threads stay retired -/

theorem retired_schedule_next {s : ProcessManager} {tid : Nat}
    (h : s.Retired tid) : s.schedule_next.2.Retired tid := by
  obtain ⟨h1, h2, h3⟩ := h
  rcases schedule_next_cases s with ⟨hq, he⟩ | ⟨t, rest, hq, ⟨tcb, hf, hr, he⟩ | ⟨he, _⟩⟩
  · rw [he]; exact ⟨h1, h2, h3⟩
  · rw [he]
    have hne : t ≠ tid := fun hEq => h2 (hEq ▸ (hq ▸ List.mem_cons_self t rest))
    refine ⟨h1, ?_, ?_⟩
    · intro hmem
      rcases List.mem_append.1 hmem with hm | hm
      · exact h2 (hq ▸ List.mem_cons_of_mem t hm)
      · have hmt : tid = t := by simpa using hm
        exact hne hmt.symm
    · intro hh
      injection hh with hh2
      exact hne hh2
  · rw [he]
    refine ⟨h1, ?_, h3⟩
    intro hmem
    exact h2 (hq ▸ List.mem_cons_of_mem t hmem)

theorem retired_terminate_thread {s : ProcessManager} {tid : Nat} (t' : Nat)
    (h : s.Retired tid) : ((s.terminate_thread t').2).Retired tid := by
  obtain ⟨h1, h2, h3⟩ := h
  cases hf : s.threads.find? (fun t => t.tid == t') with
  | none => rw [terminate_thread_not_found hf]; exact ⟨h1, h2, h3⟩
  | some w =>
    have hstate : ((updateFirst (fun t => t.tid == t')
        (fun t => { t with state := ThreadState.Terminated }) s.threads).find?
          (fun t => t.tid == tid)).map (fun t => t.state)
          = some ThreadState.Terminated := by
      by_cases hne : t' = tid
      · subst hne
        rw [find?_tid_updateTerm_self]
        rw [ProcessManager.threadStateOf] at h1
        obtain ⟨v, hv, hvs⟩ := Option.map_eq_some'.1 h1
        rw [hv]
        simp
      · rw [find?_tid_updateTerm_ne hne]
        exact h1
    have hqueue : tid ∉ s.ready_queue.filter (fun t => t != t') :=
      fun hm => h2 (List.mem_of_mem_filter hm)
    by_cases hc : s.current_thread = some t'
    · rw [terminate_thread_eq_cur hf hc]
      apply retired_schedule_next
      refine ⟨hstate, hqueue, ?_⟩
      intro hh
      cases hh
    · rw [terminate_thread_eq_notcur hf hc]
      exact ⟨hstate, hqueue, h3⟩

theorem retired_of_terminate_thread_ok {s s' : ProcessManager} {tid : Nat} {u : Unit}
    (h : s.terminate_thread tid = (Except.ok u, s')) : s'.Retired tid := by
  cases hf : s.threads.find? (fun t => t.tid == tid) with
  | none =>
    rw [terminate_thread_not_found hf] at h
    exact absurd (congrArg Prod.fst h) (by simp)
  | some w =>
    have hstate : ((updateFirst (fun t => t.tid == tid)
        (fun t => { t with state := ThreadState.Terminated }) s.threads).find?
          (fun t => t.tid == tid)).map (fun t => t.state)
          = some ThreadState.Terminated := by
      rw [find?_tid_updateTerm_self, hf]
      simp
    have hqueue : tid ∉ s.ready_queue.filter (fun t => t != tid) := by
      intro hm
      have hmem := List.of_mem_filter hm
      simp at hmem
    by_cases hc : s.current_thread = some tid
    · rw [terminate_thread_eq_cur hf hc] at h
      have hs' : s' =
          ({ s with
              threads := updateFirst (fun t => t.tid == tid)
                (fun t => { t with state := ThreadState.Terminated }) s.threads
              ready_queue := s.ready_queue.filter (fun t => t != tid)
              current_thread := none } : ProcessManager).schedule_next.2 := by
        have h2 := congrArg Prod.snd h
        simpa using h2.symm
      rw [hs']
      apply retired_schedule_next
      refine ⟨hstate, hqueue, ?_⟩
      intro hh
      cases hh
    · rw [terminate_thread_eq_notcur hf hc] at h
      have hs' : s' =
          { s with
              threads := updateFirst (fun t => t.tid == tid)
                (fun t => { t with state := ThreadState.Terminated }) s.threads
              ready_queue := s.ready_queue.filter (fun t => t != tid) } := by
        have h2 := congrArg Prod.snd h
        simpa using h2.symm
      rw [hs']
      exact ⟨hstate, hqueue, hc⟩

theorem retired_terminateAll (tids : List Nat) :
    ∀ (s s1 : ProcessManager) (u : Unit),
      s.terminateAll tids = (Except.ok u, s1) →
      (∀ tid, s.Retired tid → s1.Retired tid) ∧ (∀ t ∈ tids, s1.Retired t) := by
  induction tids with
  | nil =>
    intro s s1 u h
    have hs : s1 = s := by simpa using (congrArg Prod.snd h).symm
    subst hs
    exact ⟨fun _ ht => ht, by intro t ht; cases ht⟩
  | cons t rest ih =>
    intro s s1 u h
    rw [ProcessManager.terminateAll] at h
    cases ht : s.terminate_thread t with
    | mk r s2 =>
      rw [ht] at h
      cases r with
      | error e =>
        have h' : ((Except.error e : Except ProcessError Unit), s2)
            = (Except.ok u, s1) := h
        exact absurd (congrArg Prod.fst h') (by simp)
      | ok u2 =>
        have h' : s2.terminateAll rest = (Except.ok u, s1) := h
        obtain ⟨pres, hall⟩ := ih s2 s1 u h'
        constructor
        · intro tid htid
          refine pres tid ?_
          have hstep := retired_terminate_thread t htid
          rw [ht] at hstep
          exact hstep
        · intro x hx
          rcases List.mem_cons.1 hx with rfl | hx'
          · exact pres x (retired_of_terminate_thread_ok ht)
          · exact hall x hx'

/-! ### The (tid, pid) skeleton of the thread table is preserved -/

theorem keys_terminate_thread (t' : Nat) (s : ProcessManager) :
    ((s.terminate_thread t').2).threads.map (fun t => (t.tid, t.pid))
      = s.threads.map (fun t => (t.tid, t.pid)) := by
  cases hf : s.threads.find? (fun t => t.tid == t') with
  | none => rw [terminate_thread_not_found hf]
  | some w =>
    have hupd : (updateFirst (fun t => t.tid == t')
        (fun t => { t with state := ThreadState.Terminated }) s.threads).map
          (fun t => (t.tid, t.pid)) = s.threads.map (fun t => (t.tid, t.pid)) :=
      @updateFirst_map ThreadControlBlock (Nat × Nat) (fun t => t.tid == t')
        (fun t => { t with state := ThreadState.Terminated })
        (fun t => (t.tid, t.pid)) (fun _ _ => rfl) s.threads
    by_cases hc : s.current_thread = some t'
    · simp only [terminate_thread_eq_cur hf hc, schedule_next_threads]
      exact hupd
    · simp only [terminate_thread_eq_notcur hf hc]
      exact hupd

theorem keys_terminateAll (tids : List Nat) :
    ∀ s : ProcessManager,
      ((s.terminateAll tids).2).threads.map (fun t => (t.tid, t.pid))
        = s.threads.map (fun t => (t.tid, t.pid)) := by
  induction tids with
  | nil => intro s; rfl
  | cons t rest ih =>
    intro s
    rw [ProcessManager.terminateAll]
    cases ht : s.terminate_thread t with
    | mk r s1 =>
      have hk : s1.threads.map (fun t => (t.tid, t.pid))
          = s.threads.map (fun t => (t.tid, t.pid)) := by
        have hstep := keys_terminate_thread t s
        rw [ht] at hstep
        exact hstep
      cases r with
      | error e => exact hk
      | ok u => exact (ih s1).trans hk

theorem map_tid_eq_of_keys_eq {l l' : List ThreadControlBlock}
    (h : l.map (fun t => (t.tid, t.pid)) = l'.map (fun t => (t.tid, t.pid))) :
    l.map (fun t => t.tid) = l'.map (fun t => t.tid) := by
  have h2 := congrArg (List.map Prod.fst) h
  simpa [List.map_map, Function.comp] using h2

/-! ### Main lemma for terminate_process -/

theorem terminate_process_ok_retires {s : ProcessManager} {pid : Nat}
    {s' : ProcessManager} {u : Unit}
    (hnd : (s.threads.map (fun t => t.tid)).Nodup)
    (h : s.terminate_process pid = (Except.ok u, s')) :
    ∀ tcb ∈ s'.threads, tcb.pid = pid →
      tcb.state = ThreadState.Terminated ∧ tcb.tid ∉ s'.ready_queue ∧
        s'.current_thread ≠ some tcb.tid := by
  intro tcb htcb hpid
  cases hta : s.terminateAll ((s.threads.filter (fun t => t.pid == pid)).map
      (fun t => t.tid)) with
  | mk r s1 =>
    cases r with
    | error e =>
      rw [terminate_process_eq_err hta] at h
      exact absurd (congrArg Prod.fst h) (by simp)
    | ok u2 =>
      cases hany : s1.processes.any (fun p => p.pid == pid) with
      | false =>
        rw [terminate_process_eq_notfound hta hany] at h
        exact absurd (congrArg Prod.fst h) (by simp)
      | true =>
        rw [terminate_process_eq_found hta hany] at h
        have hs' : s' =
            { s1 with
                processes := updateFirst (fun p => p.pid == pid)
                  (fun p => { p with state := ProcessState.Terminated })
                  s1.processes } := by
          have h2 := congrArg Prod.snd h
          simpa using h2.symm
        subst hs'
        have htcb1 : tcb ∈ s1.threads := htcb
        have hkeys : s1.threads.map (fun t => (t.tid, t.pid))
            = s.threads.map (fun t => (t.tid, t.pid)) := by
          have hk := keys_terminateAll
            ((s.threads.filter (fun t => t.pid == pid)).map (fun t => t.tid)) s
          rw [hta] at hk
          exact hk
        have hmem : (tcb.tid, tcb.pid) ∈ s.threads.map (fun t => (t.tid, t.pid)) := by
          rw [← hkeys]
          exact List.mem_map_of_mem _ htcb1
        rcases List.mem_map.1 hmem with ⟨t0, ht0, hk0⟩
        have ht0tid : t0.tid = tcb.tid := by simpa using congrArg Prod.fst hk0
        have ht0pid : t0.pid = pid := by
          have hp := congrArg Prod.snd hk0
          simp at hp
          rw [hp, hpid]
        have htids : tcb.tid ∈ (s.threads.filter (fun t => t.pid == pid)).map
            (fun t => t.tid) := by
          refine List.mem_map.2 ⟨t0, ?_, ht0tid⟩
          refine List.mem_filter.2 ⟨ht0, ?_⟩
          simp [ht0pid]
        obtain ⟨pres, hall⟩ := retired_terminateAll
          ((s.threads.filter (fun t => t.pid == pid)).map (fun t => t.tid))
          s s1 u2 hta
        obtain ⟨hstate, hqueue, hcur⟩ := hall tcb.tid htids
        have hnd1 : (s1.threads.map (fun t => t.tid)).Nodup := by
          rw [map_tid_eq_of_keys_eq hkeys]
          exact hnd
        have hfind : s1.threads.find? (fun y => y.tid == tcb.tid) = some tcb :=
          @find?_key_of_mem_nodup ThreadControlBlock (fun t => t.tid) s1.threads
            hnd1 tcb htcb1
        rw [ProcessManager.threadStateOf, hfind] at hstate
        refine ⟨?_, hqueue, hcur⟩
        simpa using hstate

/-- C8: for any manager reachable from the empty one, if
`terminate_process pid` returns Ok then every thread whose owning pid is
`pid` has recorded state Terminated (in particular none is Ready or
Running), none of them remains in the ready queue, and none is the
current thread. -/
theorem C8_terminate_process_retires_all (ops : List Op) (pid : Nat)
    (s' : ProcessManager) (u : Unit)
    (h : (ProcessManager.new.applyOps ops).terminate_process pid
      = (Except.ok u, s')) :
    ∀ tcb ∈ s'.threads, tcb.pid = pid →
      tcb.state = ThreadState.Terminated ∧ tcb.tid ∉ s'.ready_queue ∧
        s'.current_thread ≠ some tcb.tid :=
  terminate_process_ok_retires (wf_applyOps ops ProcessManager.new wf_new).1 h

/-- Witness for C8: terminating process 1 right after `create_process`
leaves its (only) thread 1 Terminated, out of the queue, and not current. -/
theorem C8_witness :
    tcbTerm1.state = ThreadState.Terminated ∧
    tcbTerm1.tid ∉ termState.ready_queue ∧
    termState.current_thread ≠ some tcbTerm1.tid :=
  C8_terminate_process_retires_all [Op.createProcess initParams] 1 termState () rfl
    tcbTerm1 (by decide) rfl

end RustOS
